import Mathlib

/-!
Verification development for the streaming tool-calling orchestration engine
of the ollama-mcp-webclient repository (src/src/App.tsx).

The relevant parts of the TypeScript source are shallowly embedded as
executable Lean definitions:

* a `Json` value type together with a parser and serializer modelling the
  JavaScript `JSON.parse` / `JSON.stringify` builtins (numbers are kept as
  exact rationals; every numeric instance exercised by a theorem below is
  exactly representable as an IEEE double, so the exact-rational semantics
  agrees with the JavaScript semantics on those instances);
* the stream decoder `readStream` (App.tsx lines 581-633);
* the smart tool-call fallback tiers of `handleSendMessage`
  (App.tsx lines 917-970);
* the tool execution phase of `handleSendMessage` (App.tsx lines 973-1044);
* the per-server update of `syncTools` (App.tsx lines 352-401);
* `executeMcpTool` (App.tsx lines 712-738);
* the workflow sequencer `handleRunWorkflow` (App.tsx lines 740-810).
-/

/-- Model of a JavaScript JSON value.  Object fields keep insertion order. -/
inductive Json where
  | null : Json
  | bool (b : Bool) : Json
  | num (q : ℚ) : Json
  | str (s : String) : Json
  | arr (elems : List Json) : Json
  | obj (fields : List (String × Json)) : Json
deriving Repr

/-- Reading a field of a JavaScript object: the last binding of a duplicated
key wins (as in `JSON.parse`); reading a property of a non-object JSON value
yields `none`, standing for the JavaScript `undefined`. -/
def Json.getField? (j : Json) (key : String) : Option Json :=
  match j with
  | .obj fields => ((fields.filter (fun p => p.1 == key)).getLast?).map (·.2)
  | _ => none

/-- JavaScript object spread followed by one explicit property, as in
`{...message, content}`: every other field is kept and `key` is bound to
`v`.  Spreading a non-object produces an object holding only the explicit
property, as `{...null, content}` does. -/
def Json.setField (j : Json) (key : String) (v : Json) : Json :=
  match j with
  | .obj fields => .obj ((fields.filter (fun p => p.1 != key)) ++ [(key, v)])
  | _ => .obj [(key, v)]

/-- JavaScript truthiness of a JSON value. -/
def Json.truthy : Json → Bool
  | .null => false
  | .bool b => b
  | .num q => q != 0
  | .str s => s != ""
  | .arr _ => true
  | .obj _ => true

/-- JavaScript truthiness of a possibly-undefined value (`none` is
`undefined`, which is falsy). -/
def truthyO : Option Json → Bool
  | none => false
  | some j => j.truthy

/-- The JavaScript `a || b` operator on possibly-undefined JSON values. -/
def jsOr (a b : Option Json) : Option Json :=
  if truthyO a then a else b

/-- The JavaScript `a || b` operator with a defined fallback value. -/
def jsOrJ (a : Option Json) (b : Json) : Json :=
  if truthyO a then a.getD b else b

/-- Whitespace recognised by `JSON.parse` between tokens. -/
def jsonWs (c : Char) : Bool :=
  c == ' ' || c == '\t' || c == '\n' || c == '\r'

/-- Whitespace trimmed by `String.prototype.trim` (restricted to the ASCII
whitespace characters, the only ones the modelled protocol produces). -/
def jsWs (c : Char) : Bool :=
  c == ' ' || c == '\t' || c == '\n' || c == '\r' || c == '\x0b' || c == '\x0c'

/-- List-level model of `String.prototype.trim`. -/
def jsTrimL (cs : List Char) : List Char :=
  ((cs.dropWhile jsWs).reverse.dropWhile jsWs).reverse

/-- String-level model of `String.prototype.trim`. -/
def jsTrim (s : String) : String :=
  (jsTrimL s.data).asString

/-- Model of `String.prototype.includes` for a single character. -/
def strContains (s : String) (c : Char) : Bool :=
  s.data.contains c

/-- Skip JSON whitespace. -/
def skipWs (cs : List Char) : List Char :=
  cs.dropWhile jsonWs

/-- Value of a hexadecimal digit, if the character is one. -/
def hexVal? (c : Char) : Option Nat :=
  if '0' ≤ c ∧ c ≤ '9' then some (c.toNat - '0'.toNat)
  else if 'a' ≤ c ∧ c ≤ 'f' then some (c.toNat - 'a'.toNat + 10)
  else if 'A' ≤ c ∧ c ≤ 'F' then some (c.toNat - 'A'.toNat + 10)
  else none

/-- Body of a JSON string literal after the opening quote: returns the
decoded characters and the input following the closing quote.  Escape
sequences follow the `JSON.parse` grammar; an unescaped control character
or an unterminated literal is a parse error. -/
def parseStringBody : List Char → Option (List Char × List Char)
  | [] => none
  | '"' :: rest => some ([], rest)
  | '\\' :: '"' :: rest => (parseStringBody rest).map (fun p => ('"' :: p.1, p.2))
  | '\\' :: '\\' :: rest => (parseStringBody rest).map (fun p => ('\\' :: p.1, p.2))
  | '\\' :: '/' :: rest => (parseStringBody rest).map (fun p => ('/' :: p.1, p.2))
  | '\\' :: 'b' :: rest => (parseStringBody rest).map (fun p => ('\x08' :: p.1, p.2))
  | '\\' :: 'f' :: rest => (parseStringBody rest).map (fun p => ('\x0c' :: p.1, p.2))
  | '\\' :: 'n' :: rest => (parseStringBody rest).map (fun p => ('\n' :: p.1, p.2))
  | '\\' :: 'r' :: rest => (parseStringBody rest).map (fun p => ('\r' :: p.1, p.2))
  | '\\' :: 't' :: rest => (parseStringBody rest).map (fun p => ('\t' :: p.1, p.2))
  | '\\' :: 'u' :: h1 :: h2 :: h3 :: h4 :: rest =>
    (match hexVal? h1, hexVal? h2, hexVal? h3, hexVal? h4 with
     | some a, some b, some c2, some d =>
       (parseStringBody rest).map
         (fun p => (Char.ofNat (((a * 16 + b) * 16 + c2) * 16 + d) :: p.1, p.2))
     | _, _, _, _ => none)
  | '\\' :: _ => none
  | c :: rest => if c.toNat < 32 then none else (parseStringBody rest).map (fun p => (c :: p.1, p.2))

/-- One run of decimal digits: value, number of digits, rest. -/
def parseDigitsAux : List Char → Nat → Nat → (Nat × Nat × List Char)
  | [], acc, n => (acc, n, [])
  | c :: rest, acc, n =>
    if c.isDigit then parseDigitsAux rest (acc * 10 + (c.toNat - '0'.toNat)) (n + 1)
    else (acc, n, c :: rest)

/-- One run of decimal digits starting the input; fails when there is none. -/
def parseDigits (cs : List Char) : Option (Nat × Nat × List Char) :=
  match cs with
  | c :: _ => if c.isDigit then some (parseDigitsAux cs 0 0) else none
  | [] => none

/-- JSON number literal at the head of the input, as an exact rational.
The integer part follows the JSON grammar: a leading `0` is not followed by
further digits. -/
def parseNumber (cs : List Char) : Option (ℚ × List Char) := do
  let (neg, cs1) :=
    match cs with
    | '-' :: rest => (true, rest)
    | _ => (false, cs)
  let (intPart, cs2) ←
    match cs1 with
    | '0' :: rest => some ((0 : Nat), rest)
    | _ => (parseDigits cs1).map (fun t => (t.1, t.2.2))
  let (fracNum, fracDigits, cs3) ←
    match cs2 with
    | '.' :: rest => (parseDigits rest).map (fun t => (t.1, t.2.1, t.2.2))
    | _ => some ((0 : Nat), (0 : Nat), cs2)
  let (expNeg, expVal, cs4) ←
    match cs3 with
    | 'e' :: rest | 'E' :: rest =>
      match rest with
      | '+' :: rest2 => (parseDigits rest2).map (fun t => (false, t.1, t.2.2))
      | '-' :: rest2 => (parseDigits rest2).map (fun t => (true, t.1, t.2.2))
      | _ => (parseDigits rest).map (fun t => (false, t.1, t.2.2))
    | _ => some (false, (0 : Nat), cs3)
  let mantissa : Int := Int.ofNat (intPart * 10 ^ fracDigits + fracNum)
  let signed : Int := if neg then -mantissa else mantissa
  let q : ℚ :=
    if expNeg then mkRat signed (10 ^ fracDigits * 10 ^ expVal)
    else mkRat (signed * Int.ofNat (10 ^ expVal)) (10 ^ fracDigits)
  return (q, cs4)

/-- Input of one production of the JSON grammar: a value, the elements of an
array after its opening bracket, or the members of an object after its
opening brace. -/
inductive ParseIn where
  | val (cs : List Char) : ParseIn
  | elems (cs : List Char) : ParseIn
  | members (cs : List Char) : ParseIn

/-- Output of one production of the JSON grammar, with the remaining
input. -/
inductive ParseOut where
  | val (v : Json) (rest : List Char) : ParseOut
  | elems (vs : List Json) (rest : List Char) : ParseOut
  | members (ms : List (String × Json)) (rest : List Char) : ParseOut

/-- The three mutually recursive productions of the JSON grammar, written as
one function over explicit fuel so that the recursion is structural (any
fuel larger than the input length is enough, since every nesting level
consumes at least one character). -/
def parseRun : Nat → ParseIn → Option ParseOut
  | 0, _ => none
  | fuel + 1, .val cs =>
    (match skipWs cs with
     | 'n' :: 'u' :: 'l' :: 'l' :: rest => some (.val .null rest)
     | 't' :: 'r' :: 'u' :: 'e' :: rest => some (.val (.bool true) rest)
     | 'f' :: 'a' :: 'l' :: 's' :: 'e' :: rest => some (.val (.bool false) rest)
     | '"' :: rest => (parseStringBody rest).map (fun p => .val (.str p.1.asString) p.2)
     | '[' :: rest =>
       (match skipWs rest with
        | ']' :: rest2 => some (.val (.arr []) rest2)
        | cs2 =>
          match parseRun fuel (.elems cs2) with
          | some (.elems vs rest2) => some (.val (.arr vs) rest2)
          | _ => none)
     | '{' :: rest =>
       (match skipWs rest with
        | '}' :: rest2 => some (.val (.obj []) rest2)
        | cs2 =>
          match parseRun fuel (.members cs2) with
          | some (.members ms rest2) => some (.val (.obj ms) rest2)
          | _ => none)
     | cs2 => (parseNumber cs2).map (fun p => .val (.num p.1) p.2))
  | fuel + 1, .elems cs =>
    (match parseRun fuel (.val cs) with
     | some (.val v rest) =>
       (match skipWs rest with
        | ',' :: rest2 =>
          (match parseRun fuel (.elems rest2) with
           | some (.elems vs rest3) => some (.elems (v :: vs) rest3)
           | _ => none)
        | ']' :: rest2 => some (.elems [v] rest2)
        | _ => none)
     | _ => none)
  | fuel + 1, .members cs =>
    (match skipWs cs with
     | '"' :: rest =>
       (match parseStringBody rest with
        | some (key, rest1) =>
          (match skipWs rest1 with
           | ':' :: rest2 =>
             (match parseRun fuel (.val rest2) with
              | some (.val v rest3) =>
                (match skipWs rest3 with
                 | ',' :: rest4 =>
                   (match parseRun fuel (.members rest4) with
                    | some (.members ms rest5) =>
                      some (.members ((key.asString, v) :: ms) rest5)
                    | _ => none)
                 | '}' :: rest4 => some (.members [(key.asString, v)] rest4)
                 | _ => none)
              | _ => none)
           | _ => none)
        | none => none)
     | _ => none)

/-- JSON value at the head of the input. -/
def parseValue (fuel : Nat) (cs : List Char) : Option (Json × List Char) :=
  match parseRun fuel (.val cs) with
  | some (.val v rest) => some (v, rest)
  | _ => none

/-- Model of `JSON.parse` on a whole string: one JSON value surrounded only
by whitespace, otherwise a parse error (`none`). -/
def parseJson (cs : List Char) : Option Json :=
  match parseValue (cs.length + 1) cs with
  | some (v, rest) => if (skipWs rest).isEmpty then some v else none
  | none => none

/-- String form of `JSON.parse`. -/
def parseJsonS (s : String) : Option Json :=
  parseJson s.data

/-- Number of times the prime `p` divides `n` (with enough fuel). -/
def factorCountAux (p : Nat) : Nat → Nat → Nat
  | 0, _ => 0
  | fuel + 1, n =>
    if n % p == 0 && n > 0 && p > 1 then factorCountAux p fuel (n / p) + 1 else 0

/-- Number of times the prime `p` divides `n`. -/
def factorCount (p n : Nat) : Nat :=
  factorCountAux p n n

/-- Lowercase hexadecimal digit. -/
def hexDigit (n : Nat) : Char :=
  if n < 10 then Char.ofNat ('0'.toNat + n) else Char.ofNat ('a'.toNat + n - 10)

/-- Escaping of one character inside a `JSON.stringify` string literal. -/
def escapeChar (c : Char) : String :=
  if c == '"' then "\\\""
  else if c == '\\' then "\\\\"
  else if c == '\x08' then "\\b"
  else if c == '\x0c' then "\\f"
  else if c == '\n' then "\\n"
  else if c == '\r' then "\\r"
  else if c == '\t' then "\\t"
  else if c.toNat < 32 then
    "\\u00" ++ String.mk [hexDigit (c.toNat / 16), hexDigit (c.toNat % 16)]
  else String.singleton c

/-- String literal as produced by `JSON.stringify`. -/
def stringifyStr (s : String) : String :=
  "\"" ++ String.join (s.data.map escapeChar) ++ "\""

/-- Decimal rendering of a rational whose denominator divides a power of
ten — the only numbers `parseJson` produces.  Integers print exactly as in
JavaScript; terminating fractions print with their minimal number of decimal
digits, which is the JavaScript shortest round-trip form for the doubles
exercised here (exponent notation for extreme magnitudes is not modelled). -/
def stringifyNum (q : ℚ) : String :=
  if q.den = 1 then toString q.num
  else
    let k := max (factorCount 2 q.den) (factorCount 5 q.den)
    let m := (q.num * (10 : ℤ) ^ k) / (q.den : ℤ)
    let sign := if q.num < 0 then "-" else ""
    let ip := toString (m.natAbs / 10 ^ k)
    let fs := toString (m.natAbs % 10 ^ k)
    let pad := String.mk (List.replicate (k - fs.length) '0')
    sign ++ ip ++ "." ++ pad ++ fs

mutual

/-- Model of `JSON.stringify` (object fields in insertion order, as in
JavaScript). -/
def stringifyJson : Json → String
  | .null => "null"
  | .bool true => "true"
  | .bool false => "false"
  | .num q => stringifyNum q
  | .str s => stringifyStr s
  | .arr xs => "[" ++ stringifyList xs ++ "]"
  | .obj fs => "\x7b" ++ stringifyFields fs ++ "\x7d"

/-- Comma-joined serialization of array elements. -/
def stringifyList : List Json → String
  | [] => ""
  | [x] => stringifyJson x
  | x :: xs => stringifyJson x ++ "," ++ stringifyList xs

/-- Comma-joined serialization of object members. -/
def stringifyFields : List (String × Json) → String
  | [] => ""
  | [(k, v)] => stringifyStr k ++ ":" ++ stringifyJson v
  | (k, v) :: fs => stringifyStr k ++ ":" ++ stringifyJson v ++ "," ++ stringifyFields fs

end

/-- JavaScript number: an exact rational, an infinity, or NaN.  Rational
arithmetic is exact where IEEE doubles round; every concrete instance used
by the theorems below is exactly representable, so the two agree there. -/
inductive JsNum where
  | num (q : ℚ) : JsNum
  | inf : JsNum
  | negInf : JsNum
  | nan : JsNum
deriving Repr, DecidableEq

/-- JavaScript division, with the IEEE special-value rules (the sign of
zero is not modelled; the protocol only produces nonnegative zeros). -/
def jsDiv : JsNum → JsNum → JsNum
  | .nan, _ => .nan
  | .num _, .nan => .nan
  | .inf, .nan => .nan
  | .negInf, .nan => .nan
  | .num a, .num b =>
    if b.num = 0 then (if a.num = 0 then .nan else if 0 < a.num then .inf else .negInf)
    else .num (Rat.divInt (a.num * b.den) (a.den * b.num))
  | .num _, .inf => .num 0
  | .num _, .negInf => .num 0
  | .inf, .num b => if b.num < 0 then .negInf else .inf
  | .negInf, .num b => if b.num < 0 then .inf else .negInf
  | .inf, .inf => .nan
  | .inf, .negInf => .nan
  | .negInf, .inf => .nan
  | .negInf, .negInf => .nan

/-- JavaScript numeric coercion of a possibly-undefined JSON value, as it
occurs in `data.eval_count / (data.eval_duration / 1e9)`.  A missing field
(`undefined`) is NaN.  String and object coercion never occurs in the
modelled protocol, where the terminal statistics fields are numbers; those
cases are mapped to NaN. -/
def toJsNum : Option Json → JsNum
  | none => .nan
  | some .null => .num 0
  | some (.bool b) => .num (if b then 1 else 0)
  | some (.num q) => .num q
  | some (.str _) => .nan
  | some (.arr _) => .nan
  | some (.obj _) => .nan

/-- Terminal statistics of one decoded line, from App.tsx lines 621-624:
`{totalTokens: data.eval_count, tokensPerSecond: data.eval_count /
(data.eval_duration / 1e9)}`. -/
structure StreamStats where
  totalTokens : Option Json
  tokensPerSecond : JsNum
deriving Repr

/-- The `statsOf` computation of `readStream` for a parsed line whose `done`
field is truthy. -/
def statsOf (data : Json) : StreamStats :=
  { totalTokens := data.getField? "eval_count"
    tokensPerSecond :=
      jsDiv (toJsNum (data.getField? "eval_count"))
        (jsDiv (toJsNum (data.getField? "eval_duration")) (.num 1000000000)) }

/-- Accumulator state of `readStream` (App.tsx lines 581-633): the rolling
content, the accumulated tool-call list, the last streamed `message` object,
and the statistics surfaced by the most recent update callback. -/
structure StreamState where
  content : String
  toolCalls : List Json
  fullMessage : Option Json
  stats : Option StreamStats
deriving Repr

/-- Model of `chunk.split('\n')` on character lists. -/
def splitNl : List Char → List (List Char)
  | [] => [[]]
  | c :: rest =>
    if c = '\n' then [] :: splitNl rest
    else
      match splitNl rest with
      | l :: ls => (c :: l) :: ls
      | [] => [[c]]

/-- Processing of one line of the stream, from App.tsx lines 606-629: blank
lines are skipped, a line that fails to parse is skipped, and a parsed object
contributes its `message.content`, its `message.tool_calls`, and — when its
`done` field is truthy — the terminal statistics.  A truthy non-string
`message.content` and a truthy non-array `message.tool_calls` do not occur in
the modelled protocol and contribute nothing. -/
def processLine (st : StreamState) (line : List Char) : StreamState :=
  if (jsTrimL line).isEmpty then st
  else
    match parseJson line with
    | none => st
    | some data =>
      let st1 :=
        match data.getField? "message" with
        | some msg =>
          if msg.truthy then
            { st with
              fullMessage := some msg
              content := st.content ++
                (match msg.getField? "content" with
                 | some (.str s) => s
                 | _ => "")
              toolCalls := st.toolCalls ++
                (match msg.getField? "tool_calls" with
                 | some (.arr xs) => xs
                 | _ => []) }
          else st
        | none => st
      if truthyO (data.getField? "done") then { st1 with stats := some (statsOf data) }
      else st1

/-- Processing of one read chunk: split on newlines and process each line. -/
def processChunk (st : StreamState) (chunk : List Char) : StreamState :=
  (splitNl chunk).foldl processLine st

/-- The empty initial decoder state. -/
def initStream : StreamState :=
  { content := "", toolCalls := [], fullMessage := none, stats := none }

/-- Model of `readStream`: the reader yields the given chunks in order (the
byte-to-text layer of `TextDecoder` is abstracted to text chunks), each chunk
is split on newlines and every line is processed immediately — the source
keeps no buffer of a partial trailing line between reads. -/
def readStream (chunks : List (List Char)) : StreamState :=
  chunks.foldl processChunk initStream

/-- Removal of the first occurrence of `target` from `s`, modelling
`s.replace(target, "")` on a string argument (which JavaScript replaces at
its first occurrence only). -/
def replaceFirstL : List Char → List Char → List Char
  | [], target => if target.isPrefixOf [] then List.drop target.length [] else []
  | c :: rest, target =>
    if target.isPrefixOf (c :: rest) then (c :: rest).drop target.length
    else c :: replaceFirstL rest target

/-- The `content.replace(matched, "").trim()` step shared by both fallback
tiers. -/
def stripSpan (content : String) (span : List Char) : String :=
  jsTrim (replaceFirstL content.data span).asString

/-- Leftmost match of the regular expression `\{[\s\S]*\}`: the span from
the first `{` to the last `}` of the content, when a `}` follows the first
`{`. -/
def jsonSpanOf (cs : List Char) : Option (List Char) :=
  match cs.findIdx? (· == '{'), (cs.reverse.findIdx? (· == '}')).map (fun r => cs.length - 1 - r) with
  | some i, some k => if i < k then some ((cs.drop i).take (k - i + 1)) else none
  | _, _ => none

/-- Character class `[a-zA-Z0-9_]` of the bracket-sniffing pattern. -/
def isWordChar (c : Char) : Bool :=
  c.isAlpha || c.isDigit || c == '_'

/-- Line terminators that the regular-expression `.` does not match. -/
def isLineTerm (c : Char) : Bool :=
  c == '\n' || c == '\r' || c.toNat == 0x2028 || c.toNat == 0x2029

/-- Lazy scan of `(.*?)\)\]`: the shortest argument span followed by `)]`,
failing on a line terminator (which `.` cannot match) or at end of input. -/
def scanArgs : List Char → Option (List Char × List Char)
  | ')' :: ']' :: rest => some ([], rest)
  | c :: rest =>
    if isLineTerm c then none
    else (scanArgs rest).map (fun p => (c :: p.1, p.2))
  | [] => none

/-- Match of `\[([a-zA-Z0-9_]+)(?:\((.*?)\))?\]` anchored at the start of the
input: the matched span, the identifier, and the optional argument capture.
When the identifier run is followed by `(` but no `)]` is reachable, the
optional group fails and the mandatory `]` cannot match the `(`, so the
whole position fails — shortening the greedy identifier run cannot help,
since the following character would then be a word character, which is
neither `(` nor `]`. -/
def bracketMatchAt (cs : List Char) : Option (List Char × String × Option (List Char)) :=
  match cs with
  | '[' :: rest =>
    let ident := rest.takeWhile isWordChar
    let rest1 := rest.dropWhile isWordChar
    if ident.isEmpty then none
    else
      match rest1 with
      | ']' :: _ => some ('[' :: (ident ++ [']']), ident.asString, none)
      | '(' :: rest2 =>
        (scanArgs rest2).map
          (fun p => ('[' :: (ident ++ '(' :: (p.1 ++ [')', ']'])), ident.asString, some p.1))
      | _ => none
  | _ => none

/-- Leftmost match of the bracket pattern: attempt every start position from
the left, as the regular-expression engine does. -/
def bracketFirstMatch : List Char → Option (List Char × String × Option (List Char))
  | [] => none
  | c :: rest =>
    match bracketMatchAt (c :: rest) with
    | some m => some m
    | none => bracketFirstMatch rest

/-- One entry of the `mcpTools` manifest: the source stores
`{type, function: {name, description, parameters, serverUrl}}`; the two
fields the modelled logic reads are the function name and the owning
server. -/
structure McpTool where
  name : String
  serverUrl : String
deriving Repr, DecidableEq

/-- Function object of a synthesized fallback call, with the `arguments`
property present exactly when the source binds one (an absent property is
the JavaScript `undefined`). -/
def mkFunctionObj (name : String) (args : Option Json) : Json :=
  .obj (("name", Json.str name) ::
    (match args with
     | some a => [("arguments", a)]
     | none => []))

/-- A synthesized fallback tool call `{id, function: {name, arguments}}`;
`now` models `Date.now()`. -/
def mkFallbackCall (idPrefix : String) (now : Nat) (name : String) (args : Option Json) : Json :=
  .obj [("id", .str (idPrefix ++ toString now)), ("function", mkFunctionObj name args)]

/-- Argument extraction of the JSON-sniffing tier, App.tsx lines 927-931:
`arguments || parameters || params`, and when the result is an array its
first element with `{}` as fallback. -/
def jsonArgsOf (pt : Json) : Option Json :=
  match jsOr (jsOr (pt.getField? "arguments") (pt.getField? "parameters")) (pt.getField? "params") with
  | some (.arr xs) => some (jsOrJ xs.head? (.obj []))
  | v => v

/-- Tier JsonSniff, App.tsx lines 920-941: gated on the trimmed content
containing `{`; extracts the greedy `{...}` span, parses it, and accepts
exactly when `name || function` is a truthy string, stripping the span from
the content.  Yields the synthesized call and the cleaned content. -/
def jsonSniff (content : String) (now : Nat) : Option (Json × String) :=
  if strContains (jsTrim content) '{' then
    match jsonSpanOf content.data with
    | some span =>
      match parseJson span with
      | some pt =>
        match jsOr (pt.getField? "name") (pt.getField? "function") with
        | some (.str s) =>
          if s != "" then
            some (mkFallbackCall "call_fallback_json_" now s (jsonArgsOf pt), stripSpan content span)
          else none
        | _ => none
      | none => none
    | none => none
  else none

/-- Argument object of the bracket-sniffing tier, App.tsx lines 948-957:
`{}` when the capture is absent or empty (the source tests the capture for
truthiness before parsing), else the JSON parse of the capture, else
`{input: capture}`. -/
def bracketArgs (argSpan : Option (List Char)) : Json :=
  match argSpan with
  | none => .obj []
  | some a =>
    if a.isEmpty then .obj []
    else
      match parseJson a with
      | some j => j
      | none => .obj [("input", .str a.asString)]

/-- Tier BracketSniff, App.tsx lines 944-969: gated on the content containing
`[` and `]`; takes the leftmost bracket match and accepts exactly when the
identifier names a tool of the manifest, stripping the span. -/
def bracketSniff (content : String) (tools : List McpTool) (now : Nat) : Option (Json × String) :=
  if strContains content '[' && strContains content ']' then
    match bracketFirstMatch content.data with
    | some (span, name, argSpan) =>
      if tools.any (fun t => t.name == name) then
        some (mkFallbackCall "call_fallback_bracket_" now name (some (bracketArgs argSpan)),
          stripSpan content span)
      else none
    | none => none
  else none

/-- The smart tool fallback of `handleSendMessage`, App.tsx lines 917-970:
when the decoder produced no tool calls, try tier JsonSniff, then tier
BracketSniff; each accepted tier yields exactly one synthesized call and the
cleaned content, and when every tier fails the content is left untouched. -/
def smartFallback (content : String) (toolCalls : List Json) (tools : List McpTool) (now : Nat) :
    List Json × String :=
  if toolCalls.isEmpty then
    match jsonSniff content now with
    | some (call, cleaned) => ([call], cleaned)
    | none =>
      match bracketSniff content tools now with
      | some (call, cleaned) => ([call], cleaned)
      | none => (toolCalls, content)
  else (toolCalls, content)

/-- JavaScript index access `x?.[0]` as it occurs in
`data.result?.content?.[0]`: the first element of an array, the property
`"0"` of an object, the first character of a string, `undefined`
otherwise. -/
def jsIndex0 : Json → Option Json
  | .arr xs => xs.head?
  | .obj fs => Json.getField? (.obj fs) "0"
  | .str s => (s.data.head?).map (fun c => Json.str (String.singleton c))
  | _ => none

/-- The `data.result?.content?.[0]?.text` chain of `executeMcpTool`. -/
def contentText (data : Json) : Option Json :=
  (((data.getField? "result").bind (Json.getField? · "content")).bind jsIndex0).bind
    (Json.getField? · "text")

/-- The `data.result?.text` chain of `executeMcpTool`. -/
def flatText (data : Json) : Option Json :=
  (data.getField? "result").bind (Json.getField? · "text")

/-- The `JSON.stringify(data.result)` fallback of `executeMcpTool`
(`undefined` when `result` is absent, as `JSON.stringify(undefined)` is). -/
def stringifiedResult (data : Json) : Option Json :=
  (data.getField? "result").map (fun r => Json.str (stringifyJson r))

/-- Model of `executeMcpTool`, App.tsx lines 712-738.  The single
`tools/call` round trip is abstracted as its outcome: `.error e` when the
fetch or the JSON decoding of the response throws (with `e` the message of
the caught exception), `.ok data` for a decoded response body.  The function
is total — the source catches every failure inside its own boundary and
performs no retry — and returns the value the source returns:
`data.result?.content?.[0]?.text || data.result?.text ||
JSON.stringify(data.result)` with the final `|| "Tool returned no data."`
fallback, or the error-embedding string. -/
def executeMcpTool (outcome : Except String Json) : Json :=
  match outcome with
  | .error e => .str ("Error: Tool execution failed. " ++ e)
  | .ok data =>
    jsOrJ (jsOr (jsOr (contentText data) (flatText data)) (stringifiedResult data))
      (.str "Tool returned no data.")

/-- Endpoint status of the tool registry. -/
inductive SrvStatus where
  | online : SrvStatus
  | offline : SrvStatus
deriving Repr, DecidableEq

/-- One registry entry, from the `mcpServers` state of App.tsx line 254:
`{name, url, status, toolCount?, tools?}`.  The two optional fields are
modelled as optional; `tools = none` is the JavaScript `undefined` that a
failed registration leaves behind. -/
structure McpServer where
  name : String
  url : String
  status : SrvStatus
  toolCount : Nat
  tools : Option (List Json)
deriving Repr

/-- Outcome of one `tools/list` probe of `syncTools`: `.exn` when the fetch
throws (unreachable endpoint or the 1.5 s timeout), `.resp ok tools` for a
received response with its HTTP success flag and the extracted
`data.result?.tools || []` list. -/
inductive ProbeOutcome where
  | exn : ProbeOutcome
  | resp (ok : Bool) (tools : List Json) : ProbeOutcome
deriving Repr

/-- Per-server state update of `syncTools`, App.tsx lines 353-394 (the merge
of a `configs` overlay into the global configuration, lines 372-379, is a
separate effect on another store and is not part of the per-server state).
On a successful response the cached list is replaced only when the server
was offline, had no cached `tools` field, or the cached and received lists
differ in length; otherwise — and on a non-success response — only the
status is set online.  On a thrown probe a previously-online server goes
offline with its tools cleared, and an already-offline server is returned
unchanged. -/
def syncToolsUpdate (server : McpServer) : ProbeOutcome → McpServer
  | .resp true ts =>
    if server.status = .offline ∨ server.tools.isNone ∨ server.tools.map List.length ≠ some ts.length
    then { server with status := .online, tools := some ts, toolCount := ts.length }
    else { server with status := .online }
  | .resp false _ => { server with status := .online }
  | .exn =>
    if server.status = .online
    then { server with status := .offline, tools := some [], toolCount := 0 }
    else server

/-- Name of a tool call: `call.function.name` when it is a string.  The
source would throw on a call without a `function` object; the theorems below
only quantify over calls carrying one. -/
def callName? (call : Json) : Option String :=
  match (call.getField? "function").bind (Json.getField? · "name") with
  | some (.str n) => some n
  | _ => none

/-- Arguments of a tool call: `call.function.arguments`. -/
def callArgs? (call : Json) : Option Json :=
  (call.getField? "function").bind (Json.getField? · "arguments")

/-- One executed invocation: name, arguments and owning server, as passed to
`executeMcpTool` at App.tsx line 991. -/
structure ExecRec where
  name : String
  args : Option Json
  serverUrl : String
deriving Repr

/-- One `tool`-role transcript message, App.tsx lines 999-1003:
`{role: 'tool', content: String(result), tool_call_id: call.id ||
`call_${now}_${idx}`}`. -/
def mkToolMessage (result : String) (callId : Option Json) (now idx : Nat) : Json :=
  .obj [("role", .str "tool"), ("content", .str result),
    ("tool_call_id", jsOrJ callId (.str ("call_" ++ toString now ++ "_" ++ toString idx)))]

/-- The execution loop of `handleSendMessage`, App.tsx lines 983-1005: each
call whose `function.name` is found in the manifest is dispatched (`exec`
models `executeMcpTool` applied to the named tool, its arguments and the
owning server) and yields one tool message; a call whose name is not found
is skipped silently — no dispatch, no message.  `idx` numbers the calls for
the synthesized `tool_call_id` fallback. -/
def runToolCalls (tools : List McpTool) (exec : String → Option Json → String → String)
    (now : Nat) : List Json → Nat → List Json × List ExecRec
  | [], _ => ([], [])
  | call :: rest, idx =>
    let tail := runToolCalls tools exec now rest (idx + 1)
    match callName? call with
    | some n =>
      match tools.find? (fun t => t.name == n) with
      | some tdef =>
        (mkToolMessage (exec n (callArgs? call) tdef.serverUrl) (call.getField? "id") now idx
            :: tail.1,
          ⟨n, callArgs? call, tdef.serverUrl⟩ :: tail.2)
      | none => tail
    | none => tail

/-- The assistant message appended before the tool results, App.tsx lines
978-981: `{...message, content: content || ""}` where `message` is the last
streamed message object (spreading `null` yields a bare content object). -/
def toolCallMessage (fullMessage : Option Json) (content : String) : Json :=
  (fullMessage.getD (.obj [])).setField "content" (.str content)

/-- Result of the tool phase of one turn: the messages appended to the
transcript (in order) before any follow-up request, whether the follow-up
request is issued, and the dispatched executions. -/
structure ToolPhase where
  appended : List Json
  followUp : Bool
  executed : List ExecRec
deriving Repr

/-- The tool phase of `handleSendMessage`, App.tsx lines 973-1044: when the
resolved call list is nonempty, the call loop runs, then the assistant
message and all tool messages are pushed onto the history — in that order —
and only then is the follow-up streaming request issued. -/
def toolPhase (content : String) (toolCalls : List Json) (fullMessage : Option Json)
    (tools : List McpTool) (exec : String → Option Json → String → String) (now : Nat) :
    ToolPhase :=
  if toolCalls.isEmpty then { appended := [], followUp := false, executed := [] }
  else
    let r := runToolCalls tools exec now toolCalls 0
    { appended := toolCallMessage fullMessage content :: r.1
      followUp := true
      executed := r.2 }

/-- The post-stream portion of one turn: smart fallback resolution followed
by the tool phase, App.tsx lines 917-1044. -/
def resolveAndRun (content : String) (streamCalls : List Json) (fullMessage : Option Json)
    (tools : List McpTool) (exec : String → Option Json → String → String) (now : Nat) :
    ToolPhase :=
  let r := smartFallback content streamCalls tools now
  toolPhase r.2 r.1 fullMessage tools exec now

/-- One configured agent, from the `Agent` type of App.tsx lines 32-39
(fields the workflow reads). -/
structure WfAgent where
  id : String
  name : String
  model : String
  systemPrompt : String
  temperature : ℚ
deriving Repr, DecidableEq

/-- One workflow step, from the `WorkflowStep` type of App.tsx lines 41-45. -/
structure WfStep where
  id : String
  agentId : String
  description : String
deriving Repr, DecidableEq

/-- Status of one step log. -/
inductive LogStatus where
  | pending : LogStatus
  | running : LogStatus
  | completed : LogStatus
  | error : LogStatus
deriving Repr, DecidableEq

/-- One entry of `workflowLogs`, App.tsx line 287. -/
structure StepLog where
  stepId : String
  agentName : String
  output : String
  status : LogStatus
deriving Repr, DecidableEq

/-- One non-streaming chat request issued by a workflow step, App.tsx lines
774-786. -/
structure WfRequest where
  model : String
  system : String
  user : String
  temperature : ℚ
deriving Repr, DecidableEq

/-- Prompt of one workflow step, App.tsx line 772. -/
def wfPrompt (finalInput context description : String) : String :=
  "Workflow Input: " ++ finalInput ++ "\n\nContext from previous agents: " ++ context ++
    "\n\nYour specific instructions: " ++ description

/-- System prompt of one workflow step, App.tsx line 780. -/
def wfSystem (agent : WfAgent) : String :=
  agent.systemPrompt ++
    "\n\nYou are part of a multi-agent workflow. Respond only with the requested analysis or transformation."

/-- The initial log entry of a step, App.tsx lines 749-754. -/
def pendingLog (agents : List WfAgent) (s : WfStep) : StepLog :=
  { stepId := s.id
    agentName := (((agents.find? (fun a => a.id == s.agentId)).map (·.name)).getD "Unknown Agent")
    output := ""
    status := .pending }

/-- Model of `handleRunWorkflow`, App.tsx lines 740-810, as the final
(logs, issued requests) of the run.  `oracle` is the model endpoint: `.ok
output` for a successful non-streaming chat completion, `.error msg` when
the step throws (`msg` is the message of the thrown error — for a
non-success response the source throws `Agent <name> failed: <body>`).  The
source initializes every log as pending, marks the in-flight step running,
and on a throw the catch handler turns exactly the running log into an
error log reading `Execution failed: <msg>` while the remaining logs stay
pending and the loop is abandoned, issuing no further request; a step whose
agent is not found is skipped (`continue`) with its log left pending.  This
recursion produces those final logs and the issued requests in order. -/
def handleRunWorkflow (agents : List WfAgent) (oracle : WfRequest → Except String String)
    (finalInput : String) : List WfStep → String → List StepLog × List WfRequest
  | [], _ => ([], [])
  | step :: rest, context =>
    match agents.find? (fun a => a.id == step.agentId) with
    | none =>
      let t := handleRunWorkflow agents oracle finalInput rest context
      (pendingLog agents step :: t.1, t.2)
    | some agent =>
      let req : WfRequest :=
        ⟨agent.model, wfSystem agent, wfPrompt finalInput context step.description,
          agent.temperature⟩
      match oracle req with
      | .error msg =>
        ({ stepId := step.id, agentName := agent.name, output := "Execution failed: " ++ msg,
            status := .error } :: rest.map (pendingLog agents), [req])
      | .ok out =>
        let t := handleRunWorkflow agents oracle finalInput rest out
        ({ stepId := step.id, agentName := agent.name, output := out, status := .completed }
            :: t.1,
          req :: t.2)

/-- The ids carried by an assistant message's `tool_calls` field. -/
def callIds (tc : Option Json) : List Json :=
  match tc with
  | some (.arr xs) => xs.filterMap (fun c => c.getField? "id")
  | _ => []

/-- Fixture: a native-tier tool call carrying an id. -/
def natCall : Json :=
  .obj [("id", .str "abc"),
    ("function", .obj [("name", .str "t1"), ("arguments", .obj [])])]

/-- Fixture: a final streamed assistant message whose `tool_calls` carries
`natCall`. -/
def natMsg : Json :=
  .obj [("role", .str "assistant"), ("tool_calls", .arr [natCall])]

/-- Fixture: a resolved call naming a tool absent from every manifest used
below. -/
def unkCall : Json :=
  .obj [("function", .obj [("name", .str "nope"), ("arguments", .obj [])])]

/-- Fixture: one workflow agent. -/
def wfAgent1 : WfAgent :=
  ⟨"a1", "Agent One", "m1", "sys", (7 : ℚ) / 10⟩

/-- Fixture: a three-step workflow bound to `wfAgent1`. -/
def wfSteps1 : List WfStep :=
  [⟨"s1", "a1", "A"⟩, ⟨"s2", "a1", "B"⟩, ⟨"s3", "a1", "C"⟩]

/-- Fixture: a model endpoint that answers the first step of `wfSteps1` and
fails every other request. -/
def wfOracle1 (req : WfRequest) : Except String String :=
  if req.user = wfPrompt "in" "in" "A" then .ok "out1"
  else .error "Agent Agent One failed: boom"

theorem processLine_nil (st : StreamState) : processLine st [] = st := rfl

theorem truthyO_some_str (s : String) : truthyO (some (.str s)) = (s != "") := rfl

theorem jsOr_of_truthy (a b : Option Json) (h : truthyO a = true) : jsOr a b = a := by
  simp [jsOr, h]

theorem jsOr_of_falsy (a b : Option Json) (h : truthyO a = false) : jsOr a b = b := by
  simp [jsOr, h]

theorem jsOrJ_of_truthy (a : Option Json) (b : Json) (h : truthyO a = true) :
    jsOrJ a b = a.getD b := by
  simp [jsOrJ, h]

theorem jsOrJ_of_falsy (a : Option Json) (b : Json) (h : truthyO a = false) : jsOrJ a b = b := by
  simp [jsOrJ, h]

/-- C3: the spec claims the cached descriptor list is replaced wholesale on
every successful poll, including for an already-online endpoint whose new
list has the same length but different members.  The source (App.tsx lines
383-387) keeps the stale cache in exactly that case: an online server caching
the one-element list `[toolA]` receives the one-element list `[toolB]` and
keeps `[toolA]`. -/
theorem c3_wholesale_replace_counterexample :
    (syncToolsUpdate ⟨"s", "u", .online, 1, some [.str "toolA"]⟩
        (.resp true [.str "toolB"])).tools = some [Json.str "toolA"] ∧
      some [Json.str "toolA"] ≠ some [Json.str "toolB"] :=
  ⟨rfl, by simp⟩

/-- C3 (amended): on a successful probe the cached tool list and count are
replaced exactly when the endpoint was offline, had no cached list, or the
cached and received lists differ in length; an already-online endpoint whose
cached list has the length of the received one keeps its cache (only the
status is set online). -/
theorem c3_tool_list_replacement (server : McpServer) (ts : List Json) :
    ((server.status = .offline ∨ server.tools.isNone = true ∨
        server.tools.map List.length ≠ some ts.length) →
      syncToolsUpdate server (.resp true ts) =
        { server with status := .online, tools := some ts, toolCount := ts.length }) ∧
    (∀ l, server.status = .online → server.tools = some l → l.length = ts.length →
      syncToolsUpdate server (.resp true ts) = { server with status := .online }) := by
  constructor
  · intro h
    simp only [syncToolsUpdate]
    rw [if_pos h]
  · intro l h1 h2 h3
    simp only [syncToolsUpdate]
    rw [if_neg]
    rintro (hc | hc | hc)
    · rw [h1] at hc
      exact SrvStatus.noConfusion hc
    · rw [h2] at hc
      simp at hc
    · rw [h2] at hc
      simp [h3] at hc

theorem c3_tool_list_replacement_witness :
    syncToolsUpdate ⟨"s", "u", .offline, 0, some []⟩ (.resp true [Json.str "toolB"]) =
      { name := "s", url := "u", status := .online, toolCount := 1,
        tools := some [Json.str "toolB"] } :=
  (c3_tool_list_replacement ⟨"s", "u", .offline, 0, some []⟩ [Json.str "toolB"]).1 (Or.inl rfl)

/-- C9: an endpoint's status transitions to offline only when a probe of a
previously-online endpoint throws, and on that transition the cached tools
are cleared and the count zeroed; a thrown probe of an already-offline
endpoint returns the state unchanged (App.tsx lines 388-394). -/
theorem c9_offline_transition (server : McpServer) (outcome : ProbeOutcome) :
    (server.status = .online → (syncToolsUpdate server outcome).status = .offline →
      outcome = .exn ∧ (syncToolsUpdate server outcome).tools = some [] ∧
        (syncToolsUpdate server outcome).toolCount = 0) ∧
    (server.status = .offline → outcome = .exn → syncToolsUpdate server outcome = server) := by
  constructor
  · intro hon hoff
    cases outcome with
    | exn =>
      refine ⟨rfl, ?_, ?_⟩ <;> simp [syncToolsUpdate, hon]
    | resp ok ts =>
      exfalso
      have hs : (syncToolsUpdate server (.resp ok ts)).status = .online := by
        cases ok with
        | false => rfl
        | true =>
          simp only [syncToolsUpdate]
          split <;> rfl
      rw [hs] at hoff
      exact SrvStatus.noConfusion hoff
  · intro hoff hexn
    subst hexn
    simp [syncToolsUpdate, hoff]

theorem c9_offline_transition_witness :
    ProbeOutcome.exn = ProbeOutcome.exn ∧
      (syncToolsUpdate ⟨"s", "u", .online, 1, some [Json.str "x"]⟩ .exn).tools = some [] ∧
      (syncToolsUpdate ⟨"s", "u", .online, 1, some [Json.str "x"]⟩ .exn).toolCount = 0 :=
  (c9_offline_transition ⟨"s", "u", .online, 1, some [Json.str "x"]⟩ .exn).1 rfl rfl

/-- C8: the spec claims the result text is taken from the first present of
the content-array text field, the flat text field, and the stringified
result.  The source chains them with `||`, which tests truthiness, not
presence: a present but empty `content[0].text` is skipped and the
stringified result is returned instead. -/
theorem c8_empty_text_counterexample :
    contentText (.obj [("result", .obj [("content", .arr [.obj [("text", .str "")]])])]) =
      some (.str "") ∧
    executeMcpTool
        (.ok (.obj [("result", .obj [("content", .arr [.obj [("text", .str "")]])])])) =
      .str "\x7b\"content\":[\x7b\"text\":\"\"\x7d]\x7d" ∧
    Json.str "\x7b\"content\":[\x7b\"text\":\"\"\x7d]\x7d" ≠ Json.str "" :=
  ⟨rfl, rfl, by simp⟩

/-- C8 (amended): `executeMcpTool` never lets a failure escape — a thrown
call becomes the error-embedding string result — and performs no retry (the
model issues a single dispatch); on success the result is the first truthy
of `result.content[0].text`, `result.text`, and `JSON.stringify(result)`,
with the final fallback `"Tool returned no data."` when every one is
falsy. -/
theorem c8_execute_tool_result (e : String) (data : Json) :
    executeMcpTool (.error e) = .str ("Error: Tool execution failed. " ++ e) ∧
    (∀ s, contentText data = some (.str s) → s ≠ "" →
      executeMcpTool (.ok data) = .str s) ∧
    (truthyO (contentText data) = false → ∀ t, flatText data = some (.str t) → t ≠ "" →
      executeMcpTool (.ok data) = .str t) ∧
    (truthyO (contentText data) = false → truthyO (flatText data) = false →
      ∀ r, data.getField? "result" = some r →
        executeMcpTool (.ok data) =
          jsOrJ (some (.str (stringifyJson r))) (.str "Tool returned no data.")) ∧
    (data.getField? "result" = none →
      executeMcpTool (.ok data) = .str "Tool returned no data.") := by
  refine ⟨rfl, ?_, ?_, ?_, ?_⟩
  · intro s hs hne
    have htr : truthyO (contentText data) = true := by
      rw [hs, truthyO_some_str]
      exact bne_iff_ne.mpr hne
    show jsOrJ (jsOr (jsOr (contentText data) (flatText data)) (stringifiedResult data)) _ = _
    rw [jsOr_of_truthy _ _ htr]
    rw [jsOr_of_truthy _ _ htr, jsOrJ_of_truthy _ _ htr, hs]
    rfl
  · intro h1 t ht hne
    have htr : truthyO (flatText data) = true := by
      rw [ht, truthyO_some_str]
      exact bne_iff_ne.mpr hne
    show jsOrJ (jsOr (jsOr (contentText data) (flatText data)) (stringifiedResult data)) _ = _
    rw [jsOr_of_falsy _ _ h1, jsOr_of_truthy _ _ htr, jsOrJ_of_truthy _ _ htr, ht]
    rfl
  · intro h1 h2 r hr
    have h3 : stringifiedResult data = some (.str (stringifyJson r)) := by
      unfold stringifiedResult
      rw [hr]
      rfl
    show jsOrJ (jsOr (jsOr (contentText data) (flatText data)) (stringifiedResult data)) _ = _
    rw [jsOr_of_falsy _ _ h1, jsOr_of_falsy _ _ h2, h3]
  · intro h0
    have h1 : contentText data = none := by
      unfold contentText
      rw [h0]
      rfl
    have h2 : flatText data = none := by
      unfold flatText
      rw [h0]
      rfl
    have h3 : stringifiedResult data = none := by
      unfold stringifiedResult
      rw [h0]
      rfl
    show jsOrJ (jsOr (jsOr (contentText data) (flatText data)) (stringifiedResult data)) _ = _
    rw [h1, h2, h3]
    rfl

theorem c8_execute_tool_result_witness :
    executeMcpTool (.error "net down") = .str "Error: Tool execution failed. net down" ∧
    executeMcpTool
        (.ok (.obj [("result", .obj [("content", .arr [.obj [("text", .str "42C")]])])])) =
      .str "42C" :=
  ⟨(c8_execute_tool_result "net down" .null).1,
    (c8_execute_tool_result ""
        (.obj [("result", .obj [("content", .arr [.obj [("text", .str "42C")]])])])).2.1
      "42C" rfl (by decide)⟩

/-- C4: the spec claims a zero `eval_duration` yields not-a-number.  The
source computes `eval_count / (eval_duration / 1e9)`, and for
`eval_count = 100`, `eval_duration = 0` JavaScript evaluates `100 / 0` to
positive Infinity, which is not NaN (no error is raised either way). -/
theorem c4_zero_duration_counterexample :
    ((readStream ["\x7b\"done\":true,\"eval_count\":100,\"eval_duration\":0\x7d\n".data]).stats.map
        (·.tokensPerSecond)) = some JsNum.inf ∧
    JsNum.inf ≠ JsNum.nan :=
  ⟨rfl, by decide⟩

/-- C4 (amended): a parsed terminal line (truthy `done`) yields stats with
`totalTokens = eval_count` and `tokensPerSecond = eval_count /
(eval_duration / 1e9)`; `eval_count = 100` with `eval_duration = 2e9` gives
50; a zero duration with a positive count gives positive Infinity — a
non-finite value, produced without raising. -/
theorem c4_terminal_stats (st : StreamState) (line : List Char) (data : Json)
    (hp : parseJson line = some data) (hne : (jsTrimL line).isEmpty = false)
    (hdone : truthyO (data.getField? "done") = true) :
    (processLine st line).stats = some (statsOf data) ∧
    (∀ c d : ℚ, data.getField? "eval_count" = some (.num c) →
      data.getField? "eval_duration" = some (.num d) →
      (statsOf data).totalTokens = some (.num c) ∧
      (statsOf data).tokensPerSecond =
        jsDiv (.num c) (jsDiv (.num d) (.num 1000000000))) ∧
    (data.getField? "eval_count" = some (.num 100) →
      data.getField? "eval_duration" = some (.num 2000000000) →
      (statsOf data).tokensPerSecond = .num 50) ∧
    (∀ c : ℚ, data.getField? "eval_count" = some (.num c) → 0 < c →
      data.getField? "eval_duration" = some (.num 0) →
      (statsOf data).tokensPerSecond = .inf) := by
  refine ⟨?_, ?_, ?_, ?_⟩
  · simp [processLine, hp, hne, hdone]
  · intro c d hc hd
    constructor
    · simp [statsOf, hc]
    · simp [statsOf, hc, hd, toJsNum]
  · intro h1 h2
    simp only [statsOf, h1, h2]
    decide
  · intro c hc hpos hd
    have hcnum : 0 < c.num := Rat.num_pos.mpr hpos
    simp only [statsOf, hc, hd]
    have hinner : jsDiv (.num 0) (.num 1000000000) = .num 0 := by decide
    show jsDiv (toJsNum (some (.num c))) (jsDiv (toJsNum (some (.num 0))) (.num 1000000000)) =
      JsNum.inf
    show jsDiv (.num c) (jsDiv (.num 0) (.num 1000000000)) = JsNum.inf
    rw [hinner]
    simp [jsDiv, hcnum.ne', hcnum]

theorem c4_terminal_stats_witness :
    (processLine initStream
        "\x7b\"done\":true,\"eval_count\":100,\"eval_duration\":2000000000\x7d\n".data).stats =
      some (statsOf (.obj [("done", .bool true), ("eval_count", .num 100),
        ("eval_duration", .num 2000000000)])) ∧
    (statsOf (.obj [("done", .bool true), ("eval_count", .num 100),
        ("eval_duration", .num 2000000000)])).tokensPerSecond = .num 50 := by
  have h := c4_terminal_stats initStream
    "\x7b\"done\":true,\"eval_count\":100,\"eval_duration\":2000000000\x7d\n".data
    (.obj [("done", .bool true), ("eval_count", .num 100), ("eval_duration", .num 2000000000)])
    (by rfl) (by rfl) (by rfl)
  exact ⟨h.1, h.2.2.1 rfl rfl⟩

/-- C5: the spec claims that bracket arguments that do not parse as JSON
become `{input: rawArgs}`.  The source first tests the captured argument
string for truthiness, so the empty capture of `[get_current_time()]` —
which does not parse as JSON — yields `{}` rather than `{input: ""}`. -/
theorem c5_empty_parens_counterexample :
    (smartFallback "[get_current_time()]" [] [⟨"get_current_time", "u"⟩] 0).1 =
      [mkFallbackCall "call_fallback_bracket_" 0 "get_current_time" (some (.obj []))] ∧
    Json.obj [] ≠ Json.obj [("input", Json.str "")] :=
  ⟨rfl, by simp⟩

/-- C5 (amended): with the Native tier empty and the JsonSniff tier yielding
nothing, a content matching the bracket pattern resolves to exactly one
invocation — stripping the matched span and trimming — when the identifier
names a manifest tool, and to zero invocations with the content left
untouched when it does not; the arguments are the JSON parse of a nonempty
capture when it parses, `{input: capture}` when it does not, and `{}` when
the parentheses are absent or empty. -/
theorem c5_bracket_sniff (content : String) (tools : List McpTool) (now : Nat)
    (span : List Char) (name : String) (argSpan : Option (List Char))
    (hga : strContains content '[' = true) (hgb : strContains content ']' = true)
    (hjson : jsonSniff content now = none)
    (hmatch : bracketFirstMatch content.data = some (span, name, argSpan)) :
    (tools.any (fun t => t.name == name) = true →
      smartFallback content [] tools now =
        ([mkFallbackCall "call_fallback_bracket_" now name (some (bracketArgs argSpan))],
          stripSpan content span)) ∧
    (tools.any (fun t => t.name == name) = false →
      smartFallback content [] tools now = ([], content)) ∧
    (argSpan = none → bracketArgs argSpan = .obj []) ∧
    (∀ a, argSpan = some a → a ≠ [] → ∀ j, parseJson a = some j → bracketArgs argSpan = j) ∧
    (∀ a, argSpan = some a → a ≠ [] → parseJson a = none →
      bracketArgs argSpan = .obj [("input", .str a.asString)]) := by
  refine ⟨?_, ?_, ?_, ?_, ?_⟩
  · intro hin
    simp only [smartFallback, List.isEmpty_nil, if_true, hjson]
    simp only [bracketSniff, hga, hgb, Bool.and_self, if_true, hmatch, hin]
  · intro hout
    simp only [smartFallback, List.isEmpty_nil, if_true, hjson]
    simp only [bracketSniff, hga, hgb, Bool.and_self, if_true, hmatch, hout]
    rfl
  · intro h
    subst h
    rfl
  · intro a ha hne j hj
    subst ha
    simp only [bracketArgs, hj]
    rw [if_neg]
    simp [hne]
  · intro a ha hne hj
    subst ha
    simp only [bracketArgs, hj]
    rw [if_neg]
    simp [hne]

theorem c5_bracket_sniff_witness :
    smartFallback "[get_current_time]" [] [⟨"get_current_time", "u"⟩] 3 =
      ([mkFallbackCall "call_fallback_bracket_" 3 "get_current_time" (some (.obj []))], "") ∧
    smartFallback "[get_current_time]" [] [⟨"other_tool", "u"⟩] 3 =
      ([], "[get_current_time]") := by
  have h1 := c5_bracket_sniff "[get_current_time]" [⟨"get_current_time", "u"⟩] 3
    "[get_current_time]".data "get_current_time" none rfl rfl rfl rfl
  have h2 := c5_bracket_sniff "[get_current_time]" [⟨"other_tool", "u"⟩] 3
    "[get_current_time]".data "get_current_time" none rfl rfl rfl rfl
  exact ⟨h1.1 rfl, h2.2.1 rfl⟩

/-- C6: the spec claims the JSON-sniffed span is accepted exactly when it
has a string-valued `name` or `function` field.  The source computes
`potentialTool.name || potentialTool.function` and then requires that value
to be a truthy string, so a truthy non-string `name` shadows a string
`function`: `{"name":5,"function":"f"}` carries a string-valued `function`
field yet resolves to zero invocations with the content untouched. -/
theorem c6_name_precedence_counterexample :
    (parseJsonS "\x7b\"name\":5,\"function\":\"f\"\x7d").bind (Json.getField? · "function") =
      some (.str "f") ∧
    jsonSniff "\x7b\"name\":5,\"function\":\"f\"\x7d" 0 = none ∧
    smartFallback "\x7b\"name\":5,\"function\":\"f\"\x7d" [] [] 0 =
      ([], "\x7b\"name\":5,\"function\":\"f\"\x7d") :=
  ⟨rfl, rfl, rfl⟩

/-- C6 (amended): when the decoder produced no tool calls and the content
contains `{`, the greedy first-to-last-brace span is parsed, and the tier
accepts exactly when `name || function` — the `name` field when truthy,
else the `function` field — is a nonempty string; on acceptance it yields
one synthesized invocation with arguments from
`arguments || parameters || params` (first element when an array, `{}` when
that element is falsy) and strips the span from the content, trimming; on
rejection it yields nothing. -/
theorem c6_json_sniff (content : String) (now : Nat) (span : List Char) (pt : Json)
    (hgate : strContains (jsTrim content) '{' = true)
    (hspan : jsonSpanOf content.data = some span)
    (hparse : parseJson span = some pt) :
    (∀ s, jsOr (pt.getField? "name") (pt.getField? "function") = some (.str s) → s ≠ "" →
      jsonSniff content now =
        some (mkFallbackCall "call_fallback_json_" now s (jsonArgsOf pt),
          stripSpan content span)) ∧
    (jsOr (pt.getField? "name") (pt.getField? "function") = some (.str "") →
      jsonSniff content now = none) ∧
    (∀ v, jsOr (pt.getField? "name") (pt.getField? "function") = some v →
      (∀ s, v ≠ .str s) → jsonSniff content now = none) ∧
    (jsOr (pt.getField? "name") (pt.getField? "function") = none →
      jsonSniff content now = none) := by
  refine ⟨?_, ?_, ?_, ?_⟩
  · intro s hs hne
    simp only [jsonSniff, hgate, if_true, hspan, hparse, hs]
    rw [if_pos]
    exact bne_iff_ne.mpr hne
  · intro hs
    simp only [jsonSniff, hgate, if_true, hspan, hparse, hs]
    rfl
  · intro v hv hvs
    simp only [jsonSniff, hgate, if_true, hspan, hparse, hv]
    cases v with
    | str s => exact absurd rfl (hvs s)
    | null => rfl
    | bool b => rfl
    | num q => rfl
    | arr xs => rfl
    | obj fs => rfl
  · intro hs
    simp only [jsonSniff, hgate, if_true, hspan, hparse, hs]

theorem c6_json_sniff_witness :
    jsonSniff "\x7b\"name\":\"get_weather\",\"arguments\":\x7b\"city\":\"Rome\"\x7d\x7d" 7 =
      some (mkFallbackCall "call_fallback_json_" 7 "get_weather"
        (some (.obj [("city", .str "Rome")])), "") := by
  have h := c6_json_sniff "\x7b\"name\":\"get_weather\",\"arguments\":\x7b\"city\":\"Rome\"\x7d\x7d" 7
    "\x7b\"name\":\"get_weather\",\"arguments\":\x7b\"city\":\"Rome\"\x7d\x7d".data
    (.obj [("name", .str "get_weather"), ("arguments", .obj [("city", .str "Rome")])])
    rfl rfl rfl
  exact h.1 "get_weather" rfl (by decide)

theorem filter_key_setList (fs : List (String × Json)) (k k2 : String) (h : k2 ≠ k) :
    (fs.filter (fun p => p.1 != k)).filter (fun p => p.1 == k2) =
      fs.filter (fun p => p.1 == k2) := by
  induction fs with
  | nil => rfl
  | cons hd tl ih =>
    by_cases hk : hd.1 = k
    · have h1 : (hd.1 != k) = false := by simp [hk]
      have h2 : (hd.1 == k2) = false := by
        rw [hk]
        exact beq_eq_false_iff_ne.mpr (Ne.symm h)
      rw [List.filter_cons, h1, if_neg (by simp), List.filter_cons, h2, if_neg (by simp), ih]
    · have h1 : (hd.1 != k) = true := by simp [hk]
      rw [List.filter_cons, h1, if_pos rfl, List.filter_cons, List.filter_cons, ih]

theorem getField_setField_ne (j : Json) (k k2 : String) (v : Json) (h : k2 ≠ k) :
    (j.setField k v).getField? k2 = j.getField? k2 := by
  have hkv : List.filter (fun p => p.1 == k2) [(k, v)] = [] := by
    simp [beq_eq_false_iff_ne.mpr (Ne.symm h)]
  cases j with
  | obj fs =>
    simp only [Json.setField, Json.getField?, List.filter_append, hkv, List.append_nil,
      filter_key_setList fs k k2 h]
  | null => simp only [Json.setField, Json.getField?, hkv]; rfl
  | bool b => simp only [Json.setField, Json.getField?, hkv]; rfl
  | num q => simp only [Json.setField, Json.getField?, hkv]; rfl
  | str s => simp only [Json.setField, Json.getField?, hkv]; rfl
  | arr xs => simp only [Json.setField, Json.getField?, hkv]; rfl

theorem mkToolMessage_callId (r : String) (cid : Option Json) (now idx : Nat) :
    (mkToolMessage r cid now idx).getField? "tool_call_id" =
      some (jsOrJ cid (.str ("call_" ++ toString now ++ "_" ++ toString idx))) := by
  simp [mkToolMessage, Json.getField?]

theorem runToolCalls_all_unknown (tools : List McpTool)
    (exec : String → Option Json → String → String) (now : Nat) :
    ∀ calls idx, (∀ c ∈ calls, ∀ n, callName? c = some n →
        tools.find? (fun t => t.name == n) = none) →
      runToolCalls tools exec now calls idx = ([], []) := by
  intro calls
  induction calls with
  | nil => intro idx h; rfl
  | cons c rest ih =>
    intro idx h
    have htail := ih (idx + 1) (fun c2 hc2 => h c2 (List.mem_cons_of_mem _ hc2))
    cases hcn : callName? c with
    | none =>
      simp only [runToolCalls, hcn]
      exact htail
    | some n =>
      have hf := h c (List.mem_cons_self _ _) n hcn
      simp only [runToolCalls, hcn, hf]
      exact htail

theorem runToolCalls_length (tools : List McpTool)
    (exec : String → Option Json → String → String) (now : Nat) :
    ∀ calls idx, (runToolCalls tools exec now calls idx).1.length =
      (calls.filter (fun c => ((callName? c).bind
        (fun n => tools.find? (fun t => t.name == n))).isSome)).length := by
  intro calls
  induction calls with
  | nil => intro idx; rfl
  | cons c rest ih =>
    intro idx
    cases hcn : callName? c with
    | none =>
      simp only [runToolCalls, hcn, List.filter_cons, Option.bind, Option.isSome]
      simpa [hcn] using ih (idx + 1)
    | some n =>
      cases hf : tools.find? (fun t => t.name == n) with
      | none =>
        simp only [runToolCalls, hcn, hf, List.filter_cons]
        simpa [hcn, hf] using ih (idx + 1)
      | some tdef =>
        simp only [runToolCalls, hcn, hf, List.filter_cons, List.length_cons]
        simpa [hcn, hf] using ih (idx + 1)

theorem runToolCalls_mem (tools : List McpTool)
    (exec : String → Option Json → String → String) (now : Nat) :
    ∀ calls idx m, m ∈ (runToolCalls tools exec now calls idx).1 →
      ∃ c ∈ calls, ∃ n tdef r idx2, callName? c = some n ∧
        tools.find? (fun t => t.name == n) = some tdef ∧
        m = mkToolMessage r (c.getField? "id") now idx2 := by
  intro calls
  induction calls with
  | nil => intro idx m hm; exact absurd hm (List.not_mem_nil m)
  | cons c rest ih =>
    intro idx m hm
    cases hcn : callName? c with
    | none =>
      simp only [runToolCalls, hcn] at hm
      obtain ⟨c2, hc2, rest2⟩ := ih (idx + 1) m hm
      exact ⟨c2, List.mem_cons_of_mem _ hc2, rest2⟩
    | some n =>
      cases hf : tools.find? (fun t => t.name == n) with
      | none =>
        simp only [runToolCalls, hcn, hf] at hm
        obtain ⟨c2, hc2, rest2⟩ := ih (idx + 1) m hm
        exact ⟨c2, List.mem_cons_of_mem _ hc2, rest2⟩
      | some tdef =>
        simp only [runToolCalls, hcn, hf, List.mem_cons] at hm
        cases hm with
        | inl he =>
          exact ⟨c, List.mem_cons_self _ _, n, tdef, exec n (callArgs? c) tdef.serverUrl,
            idx, hcn, hf, he⟩
        | inr hm2 =>
          obtain ⟨c2, hc2, rest2⟩ := ih (idx + 1) m hm2
          exact ⟨c2, List.mem_cons_of_mem _ hc2, rest2⟩

/-- C10: a resolved invocation whose tool name is not found in the manifest
is skipped silently — it is dispatched to no endpoint and contributes no
tool message — while the assistant message is still appended and the
follow-up request still issued; a turn whose invocations all name unknown
tools therefore issues the second request with zero tool messages in
between (App.tsx lines 983-1044). -/
theorem c10_unknown_tool_skipped (content : String) (toolCalls : List Json)
    (fullMessage : Option Json) (tools : List McpTool)
    (exec : String → Option Json → String → String) (now : Nat)
    (hne : toolCalls ≠ []) :
    (toolPhase content toolCalls fullMessage tools exec now).appended.length =
      1 + (toolCalls.filter (fun c => ((callName? c).bind
        (fun n => tools.find? (fun t => t.name == n))).isSome)).length ∧
    ((∀ c ∈ toolCalls, ∀ n, callName? c = some n →
        tools.find? (fun t => t.name == n) = none) →
      (toolPhase content toolCalls fullMessage tools exec now).executed = [] ∧
      (toolPhase content toolCalls fullMessage tools exec now).appended =
        [toolCallMessage fullMessage content] ∧
      (toolPhase content toolCalls fullMessage tools exec now).followUp = true) := by
  have hie : toolCalls.isEmpty = false := by
    cases toolCalls with
    | nil => exact absurd rfl hne
    | cons a l => rfl
  constructor
  · simp only [toolPhase, hie, Bool.false_eq_true, if_false, List.length_cons,
      runToolCalls_length tools exec now toolCalls 0]
    omega
  · intro hall
    have hrun := runToolCalls_all_unknown tools exec now toolCalls 0 hall
    refine ⟨?_, ?_, ?_⟩ <;>
      simp only [toolPhase, hie, Bool.false_eq_true, if_false, hrun]

theorem c10_unknown_tool_skipped_witness :
    (toolPhase "hello" [unkCall] (some natMsg) [⟨"get_weather", "u"⟩]
        (fun n _ _ => n) 4).executed = [] ∧
    (toolPhase "hello" [unkCall] (some natMsg) [⟨"get_weather", "u"⟩]
        (fun n _ _ => n) 4).appended = [toolCallMessage (some natMsg) "hello"] ∧
    (toolPhase "hello" [unkCall] (some natMsg) [⟨"get_weather", "u"⟩]
        (fun n _ _ => n) 4).followUp = true := by
  have h := c10_unknown_tool_skipped "hello" [unkCall] (some natMsg)
    [⟨"get_weather", "u"⟩] (fun n _ _ => n) 4 (List.cons_ne_nil _ _)
  refine h.2 ?_
  intro c hc n hn
  rw [List.mem_singleton] at hc
  subst hc
  have hname : callName? unkCall = some "nope" := rfl
  rw [hname] at hn
  cases hn
  rfl

/-- C2: the spec claims every tool message's `tool_call_id` matches an id in
the `tool_calls` of the assistant message appended before it, for every
trust tier including the sniffed ones.  For a JsonSniff-synthesized
invocation the source never writes the synthesized call into the assistant
message: the appended assistant message is `{...message, content}` with the
raw streamed message, which carries no `tool_calls` field, while the tool
message carries the synthesized id — so the id matches nothing. -/
theorem c2_tool_call_id_counterexample :
    (resolveAndRun "\x7b\"name\":\"get_weather\",\"arguments\":\x7b\"city\":\"Rome\"\x7d\x7d" []
        (some (.obj [("role", .str "assistant"), ("content", .str "prose")]))
        [⟨"get_weather", "http://s"⟩] (fun n _ _ => n) 7).executed.length = 1 ∧
    ((resolveAndRun "\x7b\"name\":\"get_weather\",\"arguments\":\x7b\"city\":\"Rome\"\x7d\x7d" []
        (some (.obj [("role", .str "assistant"), ("content", .str "prose")]))
        [⟨"get_weather", "http://s"⟩] (fun n _ _ => n) 7).appended.get? 1).bind
      (Json.getField? · "tool_call_id") = some (.str "call_fallback_json_7") ∧
    ((resolveAndRun "\x7b\"name\":\"get_weather\",\"arguments\":\x7b\"city\":\"Rome\"\x7d\x7d" []
        (some (.obj [("role", .str "assistant"), ("content", .str "prose")]))
        [⟨"get_weather", "http://s"⟩] (fun n _ _ => n) 7).appended.get? 0).bind
      (Json.getField? · "tool_calls") = none :=
  ⟨rfl, rfl, rfl⟩

/-- C2 (amended): whenever a turn executes tool invocations — of any trust
tier — the assistant message (the last streamed message with its `content`
replaced) and all tool messages are appended to the transcript in that
order, before the follow-up request is issued, and the appended assistant
message's `tool_calls` field is exactly that of the raw streamed message:
resolved invocations, in particular the synthesized JsonSniff and
BracketSniff calls, are never written into it.  When every executed call
carries a truthy string id and appears in the streamed message's
`tool_calls` array — the Native path with ids — every tool message's
`tool_call_id` equals an id of the appended assistant message's
`tool_calls`; for synthesized invocations the streamed message carries no
matching id, as the counterexample shows. -/
theorem c2_tool_phase_order_and_ids (content : String) (toolCalls : List Json)
    (fullMessage : Option Json) (tools : List McpTool)
    (exec : String → Option Json → String → String) (now : Nat)
    (hne : toolCalls ≠ []) :
    (toolPhase content toolCalls fullMessage tools exec now).appended =
      toolCallMessage fullMessage content :: (runToolCalls tools exec now toolCalls 0).1 ∧
    (toolPhase content toolCalls fullMessage tools exec now).followUp = true ∧
    (toolCallMessage fullMessage content).getField? "tool_calls" =
      (fullMessage.getD (Json.obj [])).getField? "tool_calls" ∧
    ((∀ c ∈ toolCalls, ∃ s, c.getField? "id" = some (.str s) ∧ s ≠ "") →
      (∃ xs, (fullMessage.getD (Json.obj [])).getField? "tool_calls" =
        some (.arr xs) ∧ ∀ c ∈ toolCalls, c ∈ xs) →
      ∀ m ∈ (runToolCalls tools exec now toolCalls 0).1,
        ∃ idv ∈ callIds ((toolCallMessage fullMessage content).getField? "tool_calls"),
          m.getField? "tool_call_id" = some idv) := by
  have hie : toolCalls.isEmpty = false := by
    cases toolCalls with
    | nil => exact absurd rfl hne
    | cons a l => rfl
  have hassist0 : (toolCallMessage fullMessage content).getField? "tool_calls" =
      (fullMessage.getD (Json.obj [])).getField? "tool_calls" := by
    rw [toolCallMessage, getField_setField_ne _ _ _ _ (by decide)]
  refine ⟨?_, ?_, hassist0, ?_⟩
  · simp only [toolPhase, hie, Bool.false_eq_true, if_false]
  · simp only [toolPhase, hie, Bool.false_eq_true, if_false]
  · intro hids hmem m hm
    obtain ⟨xs, hxs, hsub⟩ := hmem
    have hassist : (toolCallMessage fullMessage content).getField? "tool_calls" =
        some (.arr xs) := by
      rw [hassist0, hxs]
    obtain ⟨c, hc, n, tdef, r, idx2, hcn, hf, hmk⟩ :=
      runToolCalls_mem tools exec now toolCalls 0 m hm
    obtain ⟨s, hid, hsne⟩ := hids c hc
    refine ⟨.str s, ?_, ?_⟩
    · rw [hassist]
      simp only [callIds]
      exact List.mem_filterMap.mpr ⟨c, hsub c hc, hid⟩
    · rw [hmk, mkToolMessage_callId, hid]
      have htr : truthyO (some (Json.str s)) = true := by
        rw [truthyO_some_str]
        exact bne_iff_ne.mpr hsne
      rw [jsOrJ_of_truthy _ _ htr]
      rfl

theorem c2_tool_phase_order_and_ids_witness :
    (toolPhase "hello" [natCall] (some natMsg) [⟨"t1", "u"⟩]
        (fun n _ _ => n) 9).appended =
      toolCallMessage (some natMsg) "hello" ::
        (runToolCalls [⟨"t1", "u"⟩] (fun n _ _ => n) 9 [natCall] 0).1 ∧
    (toolPhase "hello" [natCall] (some natMsg) [⟨"t1", "u"⟩]
        (fun n _ _ => n) 9).followUp = true ∧
    (toolCallMessage (some natMsg) "hello").getField? "tool_calls" =
      natMsg.getField? "tool_calls" ∧
    (mkToolMessage "t1" (some (.str "abc")) 9 0).getField? "tool_call_id" =
      some (.str "abc") ∧
    Json.str "abc" ∈ callIds ((toolCallMessage (some natMsg) "hello").getField? "tool_calls") := by
  have h := c2_tool_phase_order_and_ids "hello" [natCall] (some natMsg) [⟨"t1", "u"⟩]
    (fun n _ _ => n) 9 (List.cons_ne_nil _ _)
  have hidm := h.2.2.2
    (by
      intro c hc
      rw [List.mem_singleton] at hc
      subst hc
      exact ⟨"abc", rfl, by decide⟩)
    ⟨[natCall], rfl, by
      intro c hc
      rw [List.mem_singleton] at hc
      subst hc
      exact List.mem_singleton.mpr rfl⟩
  obtain ⟨idv, hidv, heq⟩ := hidm (mkToolMessage "t1" (some (.str "abc")) 9 0)
    (List.mem_singleton.mpr rfl)
  have hival : idv = Json.str "abc" := by
    have h5 : some (Json.str "abc") = some idv := by
      rw [← heq]
      rfl
    exact (Option.some.inj h5).symm
  exact ⟨h.1, h.2.1, h.2.2.1, rfl, hival ▸ hidv⟩

theorem wf_error_output_ne_empty (msg : String) : "Execution failed: " ++ msg ≠ "" := by
  intro h
  have h2 := congrArg String.length h
  rw [String.length_append] at h2
  have h3 : "Execution failed: ".length = 18 := rfl
  have h4 : "".length = 0 := rfl
  omega

/-- C7: when some step of a workflow run fails (the request throws or the
response is non-success, both surfaced as a thrown error), that step's log
is marked `error` with a non-empty message, every later step's log stays
`pending` with no request issued for it, every earlier step's log is either
`completed` with the stored output of its own successful request or —
exactly when its agent is missing and the source skipped it with `continue`
before any request (App.tsx lines 761-764) — still `pending`, and the
issued requests are precisely one per completed earlier step plus the
failing one (App.tsx lines 757-810). -/
theorem c7_workflow_fail_fast (agents : List WfAgent)
    (oracle : WfRequest → Except String String) (finalInput : String) :
    ∀ (steps : List WfStep) (context : String) (i : Nat),
      ((handleRunWorkflow agents oracle finalInput steps context).1.get? i).map
          (·.status) = some .error →
      (∀ j, j < i → ∃ l,
        (handleRunWorkflow agents oracle finalInput steps context).1.get? j = some l ∧
        ((l.status = .completed ∧
          ∃ req ∈ (handleRunWorkflow agents oracle finalInput steps context).2,
            oracle req = .ok l.output) ∨
         (l.status = .pending ∧ ∃ s, steps.get? j = some s ∧
           agents.find? (fun a => a.id == s.agentId) = none))) ∧
      (∃ l, (handleRunWorkflow agents oracle finalInput steps context).1.get? i = some l ∧
        l.status = .error ∧ l.output ≠ "") ∧
      (∀ j, i < j → j < steps.length →
        ((handleRunWorkflow agents oracle finalInput steps context).1.get? j).map
          (·.status) = some .pending) ∧
      (handleRunWorkflow agents oracle finalInput steps context).2.length =
        1 + (((handleRunWorkflow agents oracle finalInput steps context).1.take i).filter
          (fun l => l.status == LogStatus.completed)).length := by
  intro steps
  induction steps with
  | nil =>
    intro context i herr
    simp [handleRunWorkflow] at herr
  | cons step rest ih =>
    intro context i herr
    cases hagent : agents.find? (fun a => a.id == step.agentId) with
    | none =>
      simp only [handleRunWorkflow, hagent] at herr ⊢
      cases i with
      | zero =>
        exfalso
        rw [List.get?_cons_zero] at herr
        simp [pendingLog] at herr
      | succ k =>
        rw [List.get?_cons_succ] at herr
        have ihres := ih context k herr
        refine ⟨?_, ?_, ?_, ?_⟩
        · intro j hj
          cases j with
          | zero =>
            exact ⟨pendingLog agents step, rfl, Or.inr ⟨rfl, step, rfl, hagent⟩⟩
          | succ j2 =>
            obtain ⟨l, hl, hdis⟩ := ihres.1 j2 (by omega)
            refine ⟨l, by rw [List.get?_cons_succ]; exact hl, ?_⟩
            cases hdis with
            | inl hcomp =>
              obtain ⟨hc, req, hreqmem, hok⟩ := hcomp
              exact Or.inl ⟨hc, req, hreqmem, hok⟩
            | inr hpend =>
              obtain ⟨hp, s, hs, hf⟩ := hpend
              exact Or.inr ⟨hp, s, by rw [List.get?_cons_succ]; exact hs, hf⟩
        · obtain ⟨l, h1, h2, h3⟩ := ihres.2.1
          exact ⟨l, by rw [List.get?_cons_succ]; exact h1, h2, h3⟩
        · intro j hj hlen
          cases j with
          | zero => omega
          | succ j2 =>
            rw [List.get?_cons_succ]
            simp only [List.length_cons] at hlen
            exact ihres.2.2.1 j2 (by omega) (by omega)
        · rw [List.take_succ_cons, List.filter_cons]
          have hpc : ((pendingLog agents step).status == LogStatus.completed) = false := rfl
          rw [hpc]
          simp only [Bool.false_eq_true, if_false]
          exact ihres.2.2.2
    | some agent =>
      simp only [handleRunWorkflow, hagent] at herr ⊢
      cases horacle : oracle ⟨agent.model, wfSystem agent,
          wfPrompt finalInput context step.description, agent.temperature⟩ with
      | error msg =>
        rw [horacle] at herr
        dsimp only at herr
        dsimp only
        cases i with
        | succ k =>
          exfalso
          rw [List.get?_cons_succ, List.get?_map] at herr
          cases hk : rest.get? k with
          | none => rw [hk] at herr; simp at herr
          | some s2 => rw [hk] at herr; simp [pendingLog] at herr
        | zero =>
          refine ⟨?_, ?_, ?_, ?_⟩
          · intro j hj
            omega
          · exact ⟨_, rfl, rfl, wf_error_output_ne_empty _⟩
          · intro j hj hlen
            cases j with
            | zero => omega
            | succ j2 =>
              rw [List.get?_cons_succ, List.get?_map]
              simp only [List.length_cons] at hlen
              have hj2 : j2 < rest.length := by omega
              rw [List.get?_eq_get hj2]
              rfl
          · rfl
      | ok out =>
        rw [horacle] at herr
        dsimp only at herr
        dsimp only
        cases i with
        | zero =>
          exfalso
          simp at herr
        | succ k =>
          rw [List.get?_cons_succ] at herr
          have ihres := ih out k herr
          refine ⟨?_, ?_, ?_, ?_⟩
          · intro j hj
            cases j with
            | zero =>
              exact ⟨_, rfl, Or.inl ⟨rfl, _, List.mem_cons_self _ _, horacle⟩⟩
            | succ j2 =>
              obtain ⟨l, hl, hdis⟩ := ihres.1 j2 (by omega)
              refine ⟨l, by rw [List.get?_cons_succ]; exact hl, ?_⟩
              cases hdis with
              | inl hcomp =>
                obtain ⟨hc, req, hreqmem, hok⟩ := hcomp
                exact Or.inl ⟨hc, req, List.mem_cons_of_mem _ hreqmem, hok⟩
              | inr hpend =>
                obtain ⟨hp, s, hs, hf⟩ := hpend
                exact Or.inr ⟨hp, s, by rw [List.get?_cons_succ]; exact hs, hf⟩
          · obtain ⟨l, h1, h2, h3⟩ := ihres.2.1
            exact ⟨l, by rw [List.get?_cons_succ]; exact h1, h2, h3⟩
          · intro j hj hlen
            cases j with
            | zero => omega
            | succ j2 =>
              rw [List.get?_cons_succ]
              simp only [List.length_cons] at hlen
              exact ihres.2.2.1 j2 (by omega) (by omega)
          · simp only [List.take_succ_cons, List.filter_cons]
            rw [if_pos (by rfl)]
            simp only [List.length_cons]
            rw [ihres.2.2.2]
            omega

theorem c7_workflow_fail_fast_witness :
    ((handleRunWorkflow [wfAgent1] wfOracle1 "in"
        (⟨"s0", "ghost", "Z"⟩ :: wfSteps1) "in").1.get? 0).map (·.status) =
      some .pending ∧
    ((handleRunWorkflow [wfAgent1] wfOracle1 "in"
        (⟨"s0", "ghost", "Z"⟩ :: wfSteps1) "in").1.get? 1).map (·.status) =
      some .completed ∧
    ((handleRunWorkflow [wfAgent1] wfOracle1 "in"
        (⟨"s0", "ghost", "Z"⟩ :: wfSteps1) "in").1.get? 2).map (·.status) =
      some .error ∧
    ((handleRunWorkflow [wfAgent1] wfOracle1 "in"
        (⟨"s0", "ghost", "Z"⟩ :: wfSteps1) "in").1.get? 2).map (·.output) ≠
      some "" ∧
    ((handleRunWorkflow [wfAgent1] wfOracle1 "in"
        (⟨"s0", "ghost", "Z"⟩ :: wfSteps1) "in").1.get? 3).map (·.status) =
      some .pending ∧
    (handleRunWorkflow [wfAgent1] wfOracle1 "in"
        (⟨"s0", "ghost", "Z"⟩ :: wfSteps1) "in").2.length = 2 := by
  have h := c7_workflow_fail_fast [wfAgent1] wfOracle1 "in"
    (⟨"s0", "ghost", "Z"⟩ :: wfSteps1) "in" 2 (by rfl)
  obtain ⟨l1, e1, e2, e3⟩ := h.2.1
  refine ⟨rfl, rfl, ?_, ?_, h.2.2.1 3 (by omega) (by decide), ?_⟩
  · rw [e1, Option.map_some', e2]
  · rw [e1, Option.map_some']
    simp [e3]
  · rw [h.2.2.2]
    rfl

theorem splitNl_ne_nil (cs : List Char) : splitNl cs ≠ [] := by
  cases cs with
  | nil => simp [splitNl]
  | cons c rest =>
    simp only [splitNl]
    by_cases hc : c = '\n'
    · rw [if_pos hc]
      simp
    · rw [if_neg hc]
      split <;> simp

theorem splitNl_cons_nl (rest : List Char) : splitNl ('\n' :: rest) = [] :: splitNl rest := by
  simp [splitNl]

theorem splitNl_cons_other (c : Char) (rest : List Char) (hc : ¬c = '\n') :
    splitNl (c :: rest) =
      match splitNl rest with
      | l :: ls => (c :: l) :: ls
      | [] => [[c]] := by
  simp [splitNl, hc]

theorem splitNl_append_cons_nl (b : List Char) :
    ∀ a : List Char, splitNl (a ++ '\n' :: b) = splitNl a ++ splitNl b := by
  intro a
  induction a with
  | nil => rfl
  | cons c a2 ih =>
    by_cases hc : c = '\n'
    · subst hc
      rw [List.cons_append, splitNl_cons_nl, splitNl_cons_nl, ih, List.cons_append]
    · obtain ⟨la, lsa, hsp⟩ : ∃ la lsa, splitNl a2 = la :: lsa := by
        cases hsp2 : splitNl a2 with
        | nil => exact absurd hsp2 (splitNl_ne_nil a2)
        | cons la lsa => exact ⟨la, lsa, rfl⟩
      rw [List.cons_append, splitNl_cons_other c _ hc, splitNl_cons_other c _ hc, ih, hsp]
      rfl

theorem processChunk_split (st : StreamState) (a b : List Char) :
    processChunk st ((a ++ ['\n']) ++ b) = processChunk (processChunk st (a ++ ['\n'])) b := by
  have h1 : (a ++ ['\n']) ++ b = a ++ '\n' :: b := by simp
  rw [h1]
  unfold processChunk
  rw [splitNl_append_cons_nl b a, List.foldl_append]
  have h2 : splitNl (a ++ ['\n']) = splitNl a ++ [[]] := by
    have h3 := splitNl_append_cons_nl [] a
    simpa [splitNl] using h3
  rw [h2, List.foldl_append]
  simp [processLine_nil]

theorem readStream_join : ∀ (chunks : List (List Char)) (st : StreamState),
    (∀ c ∈ chunks, ∃ c2, c = c2 ++ ['\n']) →
    chunks.foldl processChunk st = processChunk st chunks.join := by
  intro chunks
  induction chunks with
  | nil =>
    intro st h
    simp [processChunk, splitNl, processLine_nil]
  | cons c cs ih =>
    intro st h
    obtain ⟨c2, rfl⟩ := h c (List.mem_cons_self _ _)
    rw [List.foldl_cons,
      ih (processChunk st (c2 ++ ['\n'])) (fun x hx => h x (List.mem_cons_of_mem _ hx))]
    show _ = processChunk st ((c2 ++ ['\n']) ++ cs.join)
    rw [processChunk_split]

/-- C1: the spec claims decoding is invariant under arbitrary chunk
boundaries because an incomplete trailing line fragment is buffered across
reads.  The source keeps no such buffer — every chunk's lines are parsed
immediately (App.tsx lines 603-607) — so a line split across two reads is
lost: both fragments fail to parse and are skipped, while the single-shot
decode of the same bytes yields the content. -/
theorem c1_chunk_boundary_counterexample :
    (readStream ["\x7b\"message\":\x7b\"content\":\"hi".data, "\"\x7d\x7d\n".data]).content = "" ∧
    (readStream ["\x7b\"message\":\x7b\"content\":\"hi\"\x7d\x7d\n".data]).content = "hi" ∧
    ("\x7b\"message\":\x7b\"content\":\"hi" ++ "\"\x7d\x7d\n" : String) =
      "\x7b\"message\":\x7b\"content\":\"hi\"\x7d\x7d\n" :=
  ⟨rfl, rfl, rfl⟩

/-- C1 (amended): decoding a stream split across chunks agrees with the
single-shot decode of the concatenation provided every chunk boundary falls
on a line boundary (each chunk ends with a newline); the decoder does not
buffer partial lines, so this is the exact sense in which splitting is
lossless. -/
theorem c1_line_aligned_split_eq (chunks : List (List Char))
    (h : ∀ c ∈ chunks, ∃ c2, c = c2 ++ ['\n']) :
    readStream chunks = readStream [chunks.join] := by
  unfold readStream
  rw [readStream_join chunks initStream h]
  rfl

theorem c1_line_aligned_split_eq_witness :
    readStream ["\x7b\"message\":\x7b\"content\":\"a\"\x7d\x7d\n".data, "\x7b\"done\":true\x7d\n".data] =
      readStream [(["\x7b\"message\":\x7b\"content\":\"a\"\x7d\x7d\n".data,
        "\x7b\"done\":true\x7d\n".data] : List (List Char)).join] := by
  apply c1_line_aligned_split_eq
  intro c hc
  simp only [List.mem_cons, List.not_mem_nil, or_false] at hc
  rcases hc with rfl | rfl
  · exact ⟨"\x7b\"message\":\x7b\"content\":\"a\"\x7d\x7d".data, rfl⟩
  · exact ⟨"\x7b\"done\":true\x7d".data, rfl⟩
